import Mathlib

/-! Code-editing agent: conversation loop and tool dispatch

A shallow embedding of `agent/agent.go` and `main.go`.

Everything the Go code does to the outside (reading a line, calling the
inference endpoint, running a tool, printing) is threaded through an explicit
environment: an abstract world state `σ`, on which the external collaborators
act as state transformers, and a chronological log of the effects performed.
The `for` loop of `Run` is a step function `iteration` driven by `loop` with a
bound on the number of iterations.
-/

namespace CodeEditingAgent

/-! ## Data model -/

/-- Raw JSON payload (`json.RawMessage`), kept as the text it prints as. -/
abbrev RawMessage := String

/-- Go `error` value that is not nil; `Error` is its text. -/
structure GoError where
  text : String
deriving DecidableEq, Repr

/-- Method `Error()` of a Go error. -/
def GoError.Error (e : GoError) : String := e.text

/-- Block of an assistant reply (`anthropic.ContentBlockUnion`): the flattened
union the loop inspects through its `Type` field. -/
structure ContentBlockUnion where
  type : String
  Text : String
  ID : String
  Name : String
  Input : RawMessage
deriving DecidableEq, Repr

/-- Block of a transcript turn (`anthropic.ContentBlockParamUnion`). -/
inductive ContentBlockParamUnion where
  | OfText (Text : String)
  | OfToolUse (ID : String) (Name : String) (Input : RawMessage)
  | OfToolResult (ToolUseID : String) (Content : String) (IsError : Bool)
  | OfOther (type : String)
deriving DecidableEq, Repr

/-- Role tag of a transcript turn. -/
inductive MessageParamRole where
  | user
  | assistant
deriving DecidableEq, Repr

/-- One turn of the transcript (`anthropic.MessageParam`). -/
structure MessageParam where
  Role : MessageParamRole
  Content : List ContentBlockParamUnion
deriving DecidableEq, Repr

/-- Assistant reply returned by the inference endpoint (`anthropic.Message`). -/
structure Message where
  Content : List ContentBlockUnion
deriving DecidableEq, Repr

/-- Tool description sent to the model (`anthropic.ToolParam`). -/
structure ToolParam where
  Name : String
  Description : String
  InputSchema : String
deriving DecidableEq, Repr

/-- Request of one inference call (`anthropic.MessageNewParams`). -/
structure MessageNewParams where
  Model : String
  Messages : List MessageParam
  MaxTokens : Nat
  Tools : List ToolParam
deriving DecidableEq, Repr

/-- `anthropic.NewTextBlock`. -/
def NewTextBlock (text : String) : ContentBlockParamUnion :=
  .OfText text

/-- `anthropic.NewToolResultBlock`. -/
def NewToolResultBlock (toolUseID : String) (content : String) (isError : Bool) :
    ContentBlockParamUnion :=
  .OfToolResult toolUseID content isError

/-- `anthropic.NewUserMessage`. -/
def NewUserMessage (blocks : List ContentBlockParamUnion) : MessageParam :=
  { Role := .user, Content := blocks }

/-- `ContentBlockUnion.ToParam`: the transcript form of a reply block. -/
def ContentBlockUnion.ToParam (c : ContentBlockUnion) : ContentBlockParamUnion :=
  if c.type = "text" then .OfText c.Text
  else if c.type = "tool_use" then .OfToolUse c.ID c.Name c.Input
  else .OfOther c.type

/-- `Message.ToParam`: the reply as an assistant-role turn. -/
def Message.ToParam (m : Message) : MessageParam :=
  { Role := .assistant, Content := m.Content.map ContentBlockUnion.ToParam }

/-! ## Effects -/

/-- Effects performed by the program, in the order they happen. -/
inductive Event where
  | print (s : String)
  | userInput (text : String) (ok : Bool)
  | inference (params : MessageNewParams) (result : Except GoError Message)
  | toolCall (name : String) (input : RawMessage) (response : String) (err : Option GoError)

/-- World state together with the log of effects performed so far. -/
structure Env (σ : Type) where
  world : σ
  log : List Event

/-- Record one effect at the end of the log. -/
def Env.emit {σ : Type} (env : Env σ) (e : Event) : Env σ :=
  { env with log := env.log ++ [e] }

/-- The inference endpoint (`client.Messages.New`): an external collaborator
acting on the world. -/
structure Client (σ : Type) where
  MessagesNew : MessageNewParams → σ → Except GoError Message × σ

/-- Modelled from the spec: the record `tools.ToolDefinition` (package `tools`
is not among the sources): name, description shown to the model, input schema
and the invocation function from raw input to an output string and an error. -/
structure ToolDefinition (σ : Type) where
  Name : String
  Description : String
  InputSchema : String
  Function : RawMessage → σ → (String × Option GoError) × σ

/-! ## Go maps keyed by strings -/

/-- Assignment `m[k] = v`: overwrite the entry of `k` if there is one, else add one. -/
def mapSet {β : Type} : List (String × β) → String → β → List (String × β)
  | [], k, v => [(k, v)]
  | (k', v') :: rest, k, v =>
    if k' = k then (k, v) :: rest else (k', v') :: mapSet rest k v

/-- Lookup `v, ok := m[k]`. -/
def mapGet {β : Type} : List (String × β) → String → Option β
  | [], _ => none
  | (k', v') :: rest, k => if k' = k then some v' else mapGet rest k

/-- Keys of a map. -/
def mapKeys {β : Type} (m : List (String × β)) : List String :=
  m.map Prod.fst

/-! ## agent.go -/

/-- The struct `Agent`. -/
structure Agent (σ : Type) where
  client : Client σ
  getUserMessage : σ → (String × Bool) × σ
  tools : List (String × ToolDefinition σ)

/-- `NewAgent`: fill the registry from the definitions, in order. -/
def NewAgent {σ : Type} (client : Client σ) (getUserMessage : σ → (String × Bool) × σ)
    (toolDefinitions : List (ToolDefinition σ)) : Agent σ :=
  { client := client
    getUserMessage := getUserMessage
    tools := toolDefinitions.foldl (fun m tool => mapSet m tool.Name tool) [] }

/-- `getTools`: one tool description per registry entry. Go leaves the order of
a map traversal open; here it is the order of the entries. -/
def Agent.getTools {σ : Type} (a : Agent σ) : List ToolParam :=
  a.tools.map fun entry =>
    { Name := entry.2.Name, Description := entry.2.Description,
      InputSchema := entry.2.InputSchema }

/-- Request built by `runInference` for a given transcript. -/
def Agent.inferenceParams {σ : Type} (a : Agent σ) (conversation : List MessageParam) :
    MessageNewParams :=
  { Model := "claude-3-opus-20240229"
    Messages := conversation
    MaxTokens := 4096
    Tools := a.getTools }

/-- `runInference`: one call of the endpoint with the whole transcript. -/
def Agent.runInference {σ : Type} (a : Agent σ) (conversation : List MessageParam)
    (env : Env σ) : Except GoError Message × Env σ :=
  let r := a.client.MessagesNew (a.inferenceParams conversation) env.world
  let env1 : Env σ :=
    { world := r.2, log := env.log ++ [.inference (a.inferenceParams conversation) r.1] }
  match r.1 with
  | .error err => (.error err, env1)
  | .ok resp => (.ok resp, env1)

/-- `executeTool`: dispatch one tool request through the registry. -/
def Agent.executeTool {σ : Type} (a : Agent σ) (id name : String) (input : RawMessage)
    (env : Env σ) : ContentBlockParamUnion × Env σ :=
  match mapGet a.tools name with
  | none => (NewToolResultBlock id "tool not found" true, env)
  | some tool =>
    let env1 := env.emit (.print ("\u001b[92mtool\u001b[0m: " ++ name ++ "(" ++ input ++ ")\n"))
    let r := tool.Function input env1.world
    let env2 : Env σ :=
      { world := r.2, log := env1.log ++ [.toolCall name input r.1.1 r.1.2] }
    match r.1.2 with
    | some err => (NewToolResultBlock id err.Error true, env2)
    | none => (NewToolResultBlock id r.1.1 false, env2)

/-- The inner `for _, content := range message.Content` of `Run`. -/
def Agent.processContent {σ : Type} (a : Agent σ) :
    List ContentBlockUnion → List ContentBlockParamUnion → Env σ →
      List ContentBlockParamUnion × Env σ
  | [], toolResults, env => (toolResults, env)
  | content :: rest, toolResults, env =>
    if content.type = "text" then
      a.processContent rest toolResults
        (env.emit (.print ("\u001b[93mClaude\u001b[0m: " ++ content.Text ++ "\n")))
    else if content.type = "tool_use" then
      let result := a.executeTool content.ID content.Name content.Input env
      a.processContent rest (toolResults ++ [result.1]) result.2
    else
      a.processContent rest toolResults env

/-- Variables of `Run` that live across iterations, with the environment. -/
structure LoopState (σ : Type) where
  conversation : List MessageParam
  readUserInput : Bool
  env : Env σ

/-- Outcome of one pass through the body of the `for` loop: either control is
back at the loop head, or `Run` has returned (`none` is the nil error). -/
inductive Step (σ : Type) where
  | next (s : LoopState σ)
  | exit (err : Option GoError) (s : LoopState σ)

/-- State carried by an outcome. -/
def Step.state {σ : Type} : Step σ → LoopState σ
  | .next s => s
  | .exit _ s => s

/-- The `if readUserInput` block at the head of the loop body. The flag returned
is `ok`: `false` is the `break`. -/
def Agent.promptUser {σ : Type} (a : Agent σ) (s : LoopState σ) : Bool × LoopState σ :=
  if s.readUserInput then
    let env1 := s.env.emit (.print "\u001b[94mYou\u001b[0m: ")
    let r := a.getUserMessage env1.world
    let env2 : Env σ := { world := r.2, log := env1.log ++ [.userInput r.1.1 r.1.2] }
    if !r.1.2 then
      (false, { s with env := env2 })
    else
      (true, { s with
        conversation := s.conversation ++ [NewUserMessage [NewTextBlock r.1.1]]
        env := env2 })
  else
    (true, s)

/-- The part of the loop body after a successful inference call. -/
def Agent.dispatch {σ : Type} (a : Agent σ) (message : Message) (s : LoopState σ) :
    LoopState σ :=
  let conversation := s.conversation ++ [message.ToParam]
  let r := a.processContent message.Content [] s.env
  if r.1.length = 0 then
    { conversation := conversation, readUserInput := true, env := r.2 }
  else
    { conversation := conversation ++ [NewUserMessage r.1], readUserInput := false,
      env := r.2 }

/-- One pass through the body of the `for` loop of `Run`. -/
def Agent.iteration {σ : Type} (a : Agent σ) (s : LoopState σ) : Step σ :=
  let p := a.promptUser s
  if !p.1 then
    .exit none p.2
  else
    let r := a.runInference p.2.conversation p.2.env
    match r.1 with
    | .error err => .exit (some err) { p.2 with env := r.2 }
    | .ok message => .next (a.dispatch message { p.2 with env := r.2 })

/-- At most `n` passes through the loop body, starting at the loop head in `s`. -/
def Agent.loop {σ : Type} (a : Agent σ) : Nat → LoopState σ → Step σ
  | 0, s => .next s
  | n + 1, s =>
    match a.iteration s with
    | .next s' => a.loop n s'
    | .exit err s' => .exit err s'

/-- State in which `Run` enters its loop. -/
def initialState {σ : Type} (w : σ) : LoopState σ :=
  { conversation := []
    readUserInput := true
    env := { world := w, log := [.print "Chat with Claude (use 'ctrl-c' to quit)\n"] } }

/-- `Run`, bounded to `fuel` passes through the loop: the error returned (`none`
is nil) with the final state, or `none` while the loop is still running. The
context argument only reaches the endpoint and is part of the world. -/
def Agent.Run {σ : Type} (a : Agent σ) (fuel : Nat) (w : σ) :
    Option (Option GoError × LoopState σ) :=
  match a.loop fuel (initialState w) with
  | .exit err s => some (err, s)
  | .next _ => none

/-! ## main.go -/

/-- Line scanner over standard input (`bufio.Scanner`): `Scan` advances to the
next line and tells whether there was one, `Text` is the line last scanned. -/
structure Scanner (σ : Type) where
  Scan : σ → Bool × σ
  Text : σ → String

/-- The closure `getUserMessage` of `main`. -/
def getUserMessage {σ : Type} (scanner : Scanner σ) (w : σ) : (String × Bool) × σ :=
  let r := scanner.Scan w
  if !r.1 then (("", false), r.2) else ((scanner.Text r.2, true), r.2)

/-- How the process ended: its exit status and the environment it left. -/
structure Process (σ : Type) where
  exitCode : Nat
  env : Env σ

/-- `main`, with `Run` bounded to `fuel` passes through its loop. The three tool
definitions of package `tools` are parameters. `main` has no exit call: it
returns after the optional error line, and a Go program whose `main` returns
exits with status 0. -/
def main {σ : Type} (client : Client σ) (scanner : Scanner σ)
    (ReadFileDefinition ListFilesDefinition EditFileDefinition : ToolDefinition σ)
    (fuel : Nat) (w : σ) : Option (Process σ) :=
  let toolDefinitions := [ReadFileDefinition, ListFilesDefinition, EditFileDefinition]
  let agent := NewAgent client (getUserMessage scanner) toolDefinitions
  match agent.Run fuel w with
  | none => none
  | some (err, s) =>
    match err with
    | some e => some { exitCode := 0, env := s.env.emit (.print ("Error: " ++ e.Error ++ "\n")) }
    | none => some { exitCode := 0, env := s.env }

/-! ## Observations on the log -/

/-- Is the block a tool request? -/
def isToolUse (c : ContentBlockUnion) : Bool :=
  decide (c.type = "tool_use")

/-- The tool requests of a reply, in the order received. -/
def toolUses (m : Message) : List ContentBlockUnion :=
  m.Content.filter isToolUse

/-- The request id a tool-result block answers, if the block is a tool result. -/
def toolResultID : ContentBlockParamUnion → Option String
  | .OfToolResult id _ _ => some id
  | _ => none

/-- Is the event an inference call? -/
def Event.isInference : Event → Bool
  | .inference _ _ => true
  | _ => false

/-- The most recent inference call of a log: its request and its result. -/
def lastInference (log : List Event) : Option (MessageNewParams × Except GoError Message) :=
  log.foldl (fun acc e =>
    match e with
    | .inference p r => some (p, r)
    | _ => acc) none

/-- Has the user-input function been called since the most recent inference
call of the log (since the start, if there was none)? -/
def promptedSince (log : List Event) : Bool :=
  log.foldl (fun acc e =>
    match e with
    | .inference _ _ => false
    | .userInput _ _ => true
    | _ => acc) false

/-! ## A scripted environment -/

/-- Scripted world: the lines left on standard input, the line last scanned,
the replies the endpoint will give, and a file table for the tools. -/
structure Script where
  stdin : List String
  token : String
  replies : List (Except GoError Message)
  files : List (String × String)

/-- Scanner reading the scripted input. -/
def scriptScanner : Scanner Script :=
  { Scan := fun w =>
      match w.stdin with
      | [] => (false, w)
      | line :: rest => (true, { w with stdin := rest, token := line })
    Text := fun w => w.token }

/-- Endpoint answering with the scripted replies; it fails once they run out. -/
def scriptClient : Client Script :=
  { MessagesNew := fun _ w =>
      match w.replies with
      | [] => (.error { text := "connection refused" }, w)
      | r :: rest => (r, { w with replies := rest }) }

/-- File-reading tool over the scripted file table. -/
def readFileTool : ToolDefinition Script :=
  { Name := "read_file"
    Description := "Read the contents of a given relative file path."
    InputSchema := "path"
    Function := fun input w =>
      match mapGet w.files input with
      | some content => ((content, none), w)
      | none => (("", some { text := "open " ++ input ++ ": no such file or directory" }), w) }

/-- Listing tool over the scripted file table. -/
def listFilesTool : ToolDefinition Script :=
  { Name := "list_files"
    Description := "List files and directories at a given path."
    InputSchema := "path"
    Function := fun _ w => ((String.intercalate "\n" (mapKeys w.files), none), w) }

/-- File-writing tool over the scripted file table. -/
def editFileTool : ToolDefinition Script :=
  { Name := "edit_file"
    Description := "Make edits to a text file."
    InputSchema := "path"
    Function := fun input w => (("OK", none), { w with files := mapSet w.files input "" }) }

/-- Agent over the scripted environment with the three tools registered. -/
def scriptAgent : Agent Script :=
  NewAgent scriptClient (getUserMessage scriptScanner) [readFileTool, listFilesTool, editFileTool]

/-- Text block of a reply. -/
def textBlock (text : String) : ContentBlockUnion :=
  { type := "text", Text := text, ID := "", Name := "", Input := "" }

/-- Tool request of a reply. -/
def toolUseBlock (id name : String) (input : RawMessage) : ContentBlockUnion :=
  { type := "tool_use", Text := "", ID := id, Name := name, Input := input }

/-- First scripted reply of `demoWorld`. -/
def demoReply : Message :=
  { Content := [textBlock "Let me look.", toolUseBlock "t1" "read_file" "b.txt",
                toolUseBlock "t2" "search" "b"] }

/-- Second scripted reply of `demoWorld`. -/
def demoClosingReply : Message :=
  { Content := [textBlock "There is no such file."] }

/-- Scripted world used in the examples: one line of input, a reply asking for
a missing file and for an unknown tool, then a closing reply. -/
def demoWorld : Script :=
  { stdin := ["read b.txt"]
    token := ""
    replies := [.ok demoReply, .ok demoClosingReply]
    files := [("a.txt", "hello")] }

/-- Second definition of the reading tool, under the same name. -/
def readFileToolV2 : ToolDefinition Script :=
  { readFileTool with Description := "Read a file (second registration)." }

/-- Second inference request of the demo session. -/
def demoSecondRequest : MessageNewParams :=
  scriptAgent.inferenceParams (scriptAgent.loop 1 (initialState demoWorld)).state.conversation

/-- Scripted world whose endpoint is unreachable: one line of input, no reply. -/
def offlineWorld : Script :=
  { stdin := ["hello"], token := "", replies := [], files := [] }

/-- Scripted world with nothing on standard input. -/
def silentWorld : Script :=
  { stdin := [], token := "", replies := [], files := [] }

/-! ## Predicates used in the statements and proofs -/

/-- The registry after the assignments of `NewAgent` over `defs`, starting from `m`. -/
def fillRegistry {σ : Type} (m : List (String × ToolDefinition σ)) (defs : List (ToolDefinition σ)) :
    List (String × ToolDefinition σ) :=
  defs.foldl (fun m tool => mapSet m tool.Name tool) m

/-- Is the event local to the dispatch of a reply (a printed line or a tool call)? -/
def Event.isLocal : Event → Bool
  | .print _ => true
  | .toolCall _ _ _ _ => true
  | _ => false

/-- The user-role turn `u` that the loop appends after reply `m`: the text the
human typed if `m` has no tool request, else the batch of tool results. -/
def FollowUp (m : Message) (u : MessageParam) : Prop :=
  (toolUses m = [] ∧ ∃ text : String, u = { Role := .user, Content := [.OfText text] }) ∨
  (toolUses m ≠ [] ∧ ∃ results : List ContentBlockParamUnion,
    results.map toolResultID = (toolUses m).map (fun c => some c.ID) ∧
    u = { Role := .user, Content := results })

/-- Rule on prompting for an inference call made after the events `pre`. -/
def PromptRule (pre : List Event) : Prop :=
  promptedSince pre = true ↔
    (lastInference pre = none ∨
      ∃ p m, lastInference pre = some (p, Except.ok m) ∧ toolUses m = [])

/-- Rule on the transcript `msgs` sent by an inference call made after `pre`. -/
def TranscriptRule (pre : List Event) (msgs : List MessageParam) : Prop :=
  (lastInference pre = none →
    ∃ text : String, msgs = [{ Role := .user, Content := [.OfText text] }]) ∧
  (∀ p0 r0, lastInference pre = some (p0, r0) →
    ∃ m u, r0 = Except.ok m ∧ msgs = p0.Messages ++ [m.ToParam, u] ∧ FollowUp m u)

/-- Every inference call of the log obeys both rules. -/
def LogOK (log : List Event) : Prop :=
  ∀ pre p r post, log = pre ++ Event.inference p r :: post →
    PromptRule pre ∧ TranscriptRule pre p.Messages

/-- Every transcript sent by an inference call of the log is an initial part
of the transcript `conversation`. -/
def SentOK (log : List Event) (conversation : List MessageParam) : Prop :=
  ∀ pre p r post, log = pre ++ Event.inference p r :: post → p.Messages <+: conversation

/-- Invariant at the head of the loop. -/
def Inv {σ : Type} (s : LoopState σ) : Prop :=
  LogOK s.env.log ∧ promptedSince s.env.log = false ∧
  (lastInference s.env.log = none → s.conversation = [] ∧ s.readUserInput = true) ∧
  (∀ p0 r0, lastInference s.env.log = some (p0, r0) →
    ∃ m, r0 = Except.ok m ∧
      ((toolUses m = [] ∧ s.readUserInput = true ∧
          s.conversation = p0.Messages ++ [m.ToParam]) ∨
       (toolUses m ≠ [] ∧ s.readUserInput = false ∧
          ∃ results : List ContentBlockParamUnion,
            results.map toolResultID = (toolUses m).map (fun c => some c.ID) ∧
            s.conversation =
              p0.Messages ++ [m.ToParam, { Role := .user, Content := results }])))

/-- The line `main` prints for the value `Run` returned: none for nil. -/
def errorLines : Option GoError → List Event
  | some e => [Event.print ("Error: " ++ e.Error ++ "\n")]
  | none => []

/-! ## The registry -/

section Registry

variable {β : Type}

theorem mapGet_mapSet (m : List (String × β)) (k k' : String) (v : β) :
    mapGet (mapSet m k v) k' = if k = k' then some v else mapGet m k' := by
  induction m with
  | nil => simp [mapSet, mapGet]
  | cons e rest ih =>
    obtain ⟨k0, v0⟩ := e
    by_cases h0 : k0 = k
    · subst h0
      by_cases h1 : k0 = k' <;> simp [mapSet, mapGet, h1]
    · by_cases h1 : k0 = k'
      · subst h1
        have h2 : ¬ k = k0 := fun h => h0 h.symm
        simp [mapSet, mapGet, h0, h2]
      · simp [mapSet, mapGet, h0, h1, ih]

theorem mem_mapKeys_mapSet (m : List (String × β)) (k k' : String) (v : β) :
    k' ∈ mapKeys (mapSet m k v) ↔ k' = k ∨ k' ∈ mapKeys m := by
  induction m with
  | nil => simp [mapSet, mapKeys]
  | cons e rest ih =>
    obtain ⟨k0, v0⟩ := e
    by_cases h0 : k0 = k
    · subst h0
      simp [mapSet, mapKeys]
    · have ih' : k' ∈ List.map Prod.fst (mapSet rest k v) ↔
          k' = k ∨ k' ∈ List.map Prod.fst rest := ih
      simp only [mapSet, h0, if_false, mapKeys, List.map_cons, List.mem_cons, ih']
      tauto

theorem nodup_mapKeys_mapSet (m : List (String × β)) (k : String) (v : β)
    (h : (mapKeys m).Nodup) : (mapKeys (mapSet m k v)).Nodup := by
  induction m with
  | nil => simp [mapSet, mapKeys]
  | cons e rest ih =>
    obtain ⟨k0, v0⟩ := e
    have hcons : k0 ∉ mapKeys rest ∧ (mapKeys rest).Nodup := by
      simpa [mapKeys] using h
    by_cases h0 : k0 = k
    · subst h0
      simpa [mapSet, mapKeys] using h
    · have hnot : k0 ∉ mapKeys (mapSet rest k v) := by
        rw [mem_mapKeys_mapSet]
        rintro (h1 | h1)
        · exact h0 h1
        · exact hcons.1 h1
      have hrec := ih hcons.2
      simp only [mapSet, h0, if_false]
      exact List.nodup_cons.mpr ⟨hnot, hrec⟩

theorem mapGet_eq_none_iff (m : List (String × β)) (k : String) :
    mapGet m k = none ↔ k ∉ mapKeys m := by
  induction m with
  | nil => simp [mapGet, mapKeys]
  | cons e rest ih =>
    obtain ⟨k0, v0⟩ := e
    by_cases h0 : k0 = k
    · subst h0
      simp [mapGet, mapKeys]
    · have h1 : ¬ k = k0 := fun h => h0 h.symm
      have ih' : mapGet rest k = none ↔ k ∉ List.map Prod.fst rest := ih
      simp [mapGet, mapKeys, h0, h1, ih']

end Registry

section Fill

variable {σ : Type}

theorem fillRegistry_keys (defs : List (ToolDefinition σ)) :
    ∀ (m : List (String × ToolDefinition σ)) (name : String),
      name ∈ mapKeys (fillRegistry m defs) ↔
        name ∈ mapKeys m ∨ ∃ d ∈ defs, d.Name = name := by
  induction defs with
  | nil => intro m name; simp [fillRegistry]
  | cons d rest ih =>
    intro m name
    have h := ih (mapSet m d.Name d) name
    simp only [fillRegistry, List.foldl_cons] at h ⊢
    rw [h, mem_mapKeys_mapSet]
    constructor
    · rintro ((h1 | h1) | ⟨d', hd', hn⟩)
      · exact Or.inr ⟨d, List.mem_cons_self _ _, h1.symm⟩
      · exact Or.inl h1
      · exact Or.inr ⟨d', List.mem_cons_of_mem _ hd', hn⟩
    · rintro (h1 | ⟨d', hd', hn⟩)
      · exact Or.inl (Or.inr h1)
      · rcases List.mem_cons.mp hd' with h2 | h2
        · subst h2
          exact Or.inl (Or.inl hn.symm)
        · exact Or.inr ⟨d', h2, hn⟩

theorem fillRegistry_nodup (defs : List (ToolDefinition σ)) :
    ∀ m : List (String × ToolDefinition σ),
      (mapKeys m).Nodup → (mapKeys (fillRegistry m defs)).Nodup := by
  induction defs with
  | nil => intro m h; simpa [fillRegistry] using h
  | cons d rest ih =>
    intro m h
    have h1 := ih (mapSet m d.Name d) (nodup_mapKeys_mapSet m d.Name d h)
    simpa [fillRegistry] using h1

theorem fillRegistry_get_of_absent (defs : List (ToolDefinition σ)) (name : String) :
    ∀ m : List (String × ToolDefinition σ),
      (∀ d ∈ defs, d.Name ≠ name) → mapGet (fillRegistry m defs) name = mapGet m name := by
  induction defs with
  | nil => intro m _; simp [fillRegistry]
  | cons d rest ih =>
    intro m h
    have h1 := ih (mapSet m d.Name d) (fun d' hd' => h d' (List.mem_cons_of_mem _ hd'))
    have h2 : d.Name ≠ name := h d (List.mem_cons_self _ _)
    simp only [fillRegistry, List.foldl_cons] at h1 ⊢
    rw [h1, mapGet_mapSet]
    simp [h2]

theorem fillRegistry_get_last (pre post : List (ToolDefinition σ)) (d : ToolDefinition σ)
    (m : List (String × ToolDefinition σ)) (h : ∀ d' ∈ post, d'.Name ≠ d.Name) :
    mapGet (fillRegistry m (pre ++ d :: post)) d.Name = some d := by
  have h1 := fillRegistry_get_of_absent post d.Name (mapSet (fillRegistry m pre) d.Name d) h
  simp only [fillRegistry, List.foldl_append, List.foldl_cons] at h1 ⊢
  rw [h1, mapGet_mapSet]
  simp

end Fill

/-- C9: for every sequence of tool definitions, `NewAgent` builds a registry
whose keys are exactly the names occurring in the sequence, each key once, and
in which every name is mapped to the last definition of the sequence bearing
that name. -/
theorem NewAgent_registry {σ : Type} (client : Client σ)
    (getUserMessage : σ → (String × Bool) × σ) (toolDefinitions : List (ToolDefinition σ)) :
    (∀ name : String,
      name ∈ mapKeys (NewAgent client getUserMessage toolDefinitions).tools ↔
        ∃ d ∈ toolDefinitions, d.Name = name) ∧
    (mapKeys (NewAgent client getUserMessage toolDefinitions).tools).Nodup ∧
    (∀ (pre post : List (ToolDefinition σ)) (d : ToolDefinition σ),
      toolDefinitions = pre ++ d :: post → (∀ d' ∈ post, d'.Name ≠ d.Name) →
        mapGet (NewAgent client getUserMessage toolDefinitions).tools d.Name = some d) := by
  refine ⟨?_, ?_, ?_⟩
  · intro name
    have h := fillRegistry_keys toolDefinitions [] name
    simpa [NewAgent, fillRegistry, mapKeys] using h
  · have h := fillRegistry_nodup toolDefinitions [] (by simp [mapKeys])
    simpa [NewAgent, fillRegistry] using h
  · intro pre post d hdefs hpost
    subst hdefs
    exact fillRegistry_get_last pre post d [] hpost

/-- C9 at a sequence with a duplicate name: the later definition is the one registered. -/
theorem NewAgent_registry_witness :
    mapGet (NewAgent scriptClient (getUserMessage scriptScanner)
      [readFileTool, listFilesTool, readFileToolV2]).tools readFileToolV2.Name
      = some readFileToolV2 :=
  (NewAgent_registry scriptClient (getUserMessage scriptScanner)
    [readFileTool, listFilesTool, readFileToolV2]).2.2
    [readFileTool, listFilesTool] [] readFileToolV2 rfl (by simp)

/-! ## Tool dispatch -/

/-- C2: if `name` is not a key of the registry, `executeTool` returns the
tool-result block with the request id, content "tool not found" and the error
flag set, and leaves the environment as it was: no tool function is called,
nothing is printed, and no error reaches `Run`. -/
theorem executeTool_not_found {σ : Type} (a : Agent σ) (id name : String) (input : RawMessage)
    (env : Env σ) (h : name ∉ mapKeys a.tools) :
    a.executeTool id name input env =
      (ContentBlockParamUnion.OfToolResult id "tool not found" true, env) := by
  have h1 : mapGet a.tools name = none := (mapGet_eq_none_iff a.tools name).mpr h
  simp [Agent.executeTool, h1, NewToolResultBlock]

/-- C2 at the scripted agent, for the unregistered tool name "search". -/
theorem executeTool_not_found_witness :
    "search" ∉ mapKeys scriptAgent.tools ∧
    scriptAgent.executeTool "t2" "search" "b" { world := demoWorld, log := [] } =
      (ContentBlockParamUnion.OfToolResult "t2" "tool not found" true,
        { world := demoWorld, log := [] }) :=
  ⟨by decide,
    executeTool_not_found scriptAgent "t2" "search" "b" { world := demoWorld, log := [] }
      (by decide)⟩

/-- C3: for a registered tool name, `executeTool` calls the registered function
once, on the raw input and the current world, and returns a tool-result block
with the request id: error-flagged with the text of the error if the function
returns one, else not flagged with the output of the function. The world moves
to the one the function leaves and the log gains the trace line and that call. -/
theorem executeTool_registered {σ : Type} (a : Agent σ) (id name : String) (input : RawMessage)
    (env : Env σ) (tool : ToolDefinition σ) (response : String) (err : Option GoError) (w' : σ)
    (hreg : mapGet a.tools name = some tool)
    (hcall : tool.Function input env.world = ((response, err), w')) :
    a.executeTool id name input env =
      (ContentBlockParamUnion.OfToolResult id
          (match err with
            | some e => e.Error
            | none => response)
          err.isSome,
        { world := w'
          log := env.log ++
            [Event.print ("\u001b[92mtool\u001b[0m: " ++ name ++ "(" ++ input ++ ")\n"),
             Event.toolCall name input response err] }) := by
  cases err with
  | none => simp [Agent.executeTool, hreg, Env.emit, hcall, NewToolResultBlock]
  | some e => simp [Agent.executeTool, hreg, Env.emit, hcall, NewToolResultBlock]

/-- C3 at the scripted agent: reading a missing file gives an error-flagged
result carrying the text of the error. -/
theorem executeTool_registered_witness :
    scriptAgent.executeTool "t1" "read_file" "b.txt" { world := demoWorld, log := [] } =
      (ContentBlockParamUnion.OfToolResult "t1" "open b.txt: no such file or directory" true,
        { world := demoWorld
          log :=
            [Event.print "\u001b[92mtool\u001b[0m: read_file(b.txt)\n",
             Event.toolCall "read_file" "b.txt" ""
               (some { text := "open b.txt: no such file or directory" })] }) :=
  executeTool_registered scriptAgent "t1" "read_file" "b.txt" { world := demoWorld, log := [] }
    readFileTool "" (some { text := "open b.txt: no such file or directory" }) demoWorld rfl rfl

/-! ## The loop body -/

section Body

variable {σ : Type}

theorem executeTool_id (a : Agent σ) (id name : String) (input : RawMessage) (env : Env σ) :
    toolResultID (a.executeTool id name input env).1 = some id := by
  unfold Agent.executeTool
  cases hreg : mapGet a.tools name with
  | none => simp [NewToolResultBlock, toolResultID]
  | some tool =>
    simp only []
    split <;> simp [NewToolResultBlock, toolResultID]

theorem processContent_results (a : Agent σ) (cs : List ContentBlockUnion) :
    ∀ (acc : List ContentBlockParamUnion) (env : Env σ),
      ∃ rs, (a.processContent cs acc env).1 = acc ++ rs ∧
        rs.map toolResultID = (cs.filter isToolUse).map (fun c => some c.ID) := by
  induction cs with
  | nil => intro acc env; exact ⟨[], by simp [Agent.processContent]⟩
  | cons c rest ih =>
    intro acc env
    by_cases ht : c.type = "text"
    · have hu : isToolUse c = false := by simp [isToolUse, ht]
      obtain ⟨rs, h1, h2⟩ := ih acc
        (env.emit (.print ("\u001b[93mClaude\u001b[0m: " ++ c.Text ++ "\n")))
      refine ⟨rs, ?_, ?_⟩
      · simpa [Agent.processContent, ht] using h1
      · simpa [List.filter_cons, hu] using h2
    · by_cases hu : c.type = "tool_use"
      · have hu' : isToolUse c = true := by simp [isToolUse, hu]
        obtain ⟨rs, h1, h2⟩ := ih (acc ++ [(a.executeTool c.ID c.Name c.Input env).1])
          (a.executeTool c.ID c.Name c.Input env).2
        refine ⟨(a.executeTool c.ID c.Name c.Input env).1 :: rs, ?_, ?_⟩
        · simpa [Agent.processContent, ht, hu] using h1
        · simp [List.filter_cons, hu', h2, executeTool_id]
      · have hu' : isToolUse c = false := by simp [isToolUse, hu]
        obtain ⟨rs, h1, h2⟩ := ih acc env
        refine ⟨rs, ?_, ?_⟩
        · simpa [Agent.processContent, ht, hu] using h1
        · simpa [List.filter_cons, hu'] using h2

theorem promptUser_true (a : Agent σ) (s s1 : LoopState σ) (h : a.promptUser s = (true, s1)) :
    (s.readUserInput = false ∧ s1 = s) ∨
    (s.readUserInput = true ∧ (a.getUserMessage s.env.world).1.2 = true ∧
      s1 = { conversation := s.conversation ++
               [NewUserMessage [NewTextBlock (a.getUserMessage s.env.world).1.1]]
             readUserInput := true
             env := { world := (a.getUserMessage s.env.world).2
                      log := s.env.log ++ [Event.print "\u001b[94mYou\u001b[0m: ",
                        Event.userInput (a.getUserMessage s.env.world).1.1 true] } }) := by
  unfold Agent.promptUser at h
  cases hr : s.readUserInput with
  | false =>
    left
    simp [hr] at h
    exact ⟨rfl, h.symm⟩
  | true =>
    right
    cases hok : (a.getUserMessage s.env.world).1.2 with
    | false => simp [hr, Env.emit, hok] at h
    | true =>
      simp [hr, Env.emit, hok] at h
      refine ⟨rfl, rfl, ?_⟩
      rw [← h]

theorem promptUser_false (a : Agent σ) (s : LoopState σ) (h : (a.promptUser s).1 = false) :
    s.readUserInput = true ∧ (a.getUserMessage s.env.world).1.2 = false ∧
    (a.promptUser s).2 =
      { s with env := { world := (a.getUserMessage s.env.world).2
                        log := s.env.log ++ [Event.print "\u001b[94mYou\u001b[0m: ",
                          Event.userInput (a.getUserMessage s.env.world).1.1 false] } } := by
  unfold Agent.promptUser at h ⊢
  cases hr : s.readUserInput with
  | false => simp [hr] at h
  | true =>
    cases hok : (a.getUserMessage s.env.world).1.2 with
    | true => simp [hr, Env.emit, hok] at h
    | false => simp [Env.emit, hok]

theorem runInference_eq (a : Agent σ) (conversation : List MessageParam) (env : Env σ) :
    a.runInference conversation env =
      ((a.client.MessagesNew (a.inferenceParams conversation) env.world).1,
        { world := (a.client.MessagesNew (a.inferenceParams conversation) env.world).2
          log := env.log ++ [Event.inference (a.inferenceParams conversation)
            (a.client.MessagesNew (a.inferenceParams conversation) env.world).1] }) := by
  unfold Agent.runInference
  generalize a.client.MessagesNew (a.inferenceParams conversation) env.world = r
  obtain ⟨r1, w1⟩ := r
  cases r1 <;> rfl

theorem iteration_of_break (a : Agent σ) (s : LoopState σ) (h : (a.promptUser s).1 = false) :
    a.iteration s = .exit none (a.promptUser s).2 := by
  simp [Agent.iteration, h]

theorem iteration_of_error (a : Agent σ) (s s1 : LoopState σ) (e : GoError) (env2 : Env σ)
    (hp : a.promptUser s = (true, s1))
    (hi : a.runInference s1.conversation s1.env = (.error e, env2)) :
    a.iteration s = .exit (some e) { s1 with env := env2 } := by
  simp [Agent.iteration, hp, hi]

theorem iteration_of_reply (a : Agent σ) (s s1 : LoopState σ) (m : Message) (env2 : Env σ)
    (hp : a.promptUser s = (true, s1))
    (hi : a.runInference s1.conversation s1.env = (.ok m, env2)) :
    a.iteration s = .next (a.dispatch m { s1 with env := env2 }) := by
  simp [Agent.iteration, hp, hi]

theorem iteration_cases (a : Agent σ) (s : LoopState σ) :
    ((a.promptUser s).1 = false ∧ a.iteration s = .exit none (a.promptUser s).2) ∨
    (∃ s1 e env2, a.promptUser s = (true, s1) ∧
      a.runInference s1.conversation s1.env = (.error e, env2) ∧
      a.iteration s = .exit (some e) { s1 with env := env2 }) ∨
    (∃ s1 m env2, a.promptUser s = (true, s1) ∧
      a.runInference s1.conversation s1.env = (.ok m, env2) ∧
      a.iteration s = .next (a.dispatch m { s1 with env := env2 })) := by
  cases hp : (a.promptUser s).1 with
  | false => exact Or.inl ⟨rfl, iteration_of_break a s hp⟩
  | true =>
    right
    have hp' : a.promptUser s = (true, (a.promptUser s).2) := by
      rw [← hp]
    cases hi : (a.runInference (a.promptUser s).2.conversation (a.promptUser s).2.env).1 with
    | error e =>
      left
      have hi' : a.runInference (a.promptUser s).2.conversation (a.promptUser s).2.env =
          (.error e, (a.runInference (a.promptUser s).2.conversation (a.promptUser s).2.env).2) := by
        rw [← hi]
      exact ⟨_, e, _, hp', hi', iteration_of_error a s _ e _ hp' hi'⟩
    | ok m =>
      right
      have hi' : a.runInference (a.promptUser s).2.conversation (a.promptUser s).2.env =
          (.ok m, (a.runInference (a.promptUser s).2.conversation (a.promptUser s).2.env).2) := by
        rw [← hi]
      exact ⟨_, m, _, hp', hi', iteration_of_reply a s _ m _ hp' hi'⟩

theorem dispatch_of_tool_uses (a : Agent σ) (m : Message) (s : LoopState σ)
    (h : toolUses m ≠ []) :
    ∃ results,
      a.dispatch m s =
        { conversation := s.conversation ++ [m.ToParam, NewUserMessage results]
          readUserInput := false
          env := (a.processContent m.Content [] s.env).2 } ∧
      results = (a.processContent m.Content [] s.env).1 ∧
      results.map toolResultID = (toolUses m).map (fun c => some c.ID) := by
  obtain ⟨rs, h1, h2⟩ := processContent_results a m.Content [] s.env
  simp only [List.nil_append] at h1
  have hlen : rs.length ≠ 0 := by
    intro h0
    have h3 : rs = [] := List.length_eq_zero.mp h0
    rw [h3] at h2
    simp at h2
    exact h (by simpa [toolUses] using h2)
  refine ⟨rs, ?_, h1.symm, h2⟩
  simp [Agent.dispatch, h1, hlen]

theorem dispatch_of_no_tool_use (a : Agent σ) (m : Message) (s : LoopState σ)
    (h : toolUses m = []) :
    a.dispatch m s =
      { conversation := s.conversation ++ [m.ToParam]
        readUserInput := true
        env := (a.processContent m.Content [] s.env).2 } := by
  obtain ⟨rs, h1, h2⟩ := processContent_results a m.Content [] s.env
  simp only [List.nil_append] at h1
  have h3 : rs = [] := by
    have h4 : (m.Content.filter isToolUse) = [] := h
    rw [h4] at h2
    simpa using h2
  simp [Agent.dispatch, h1, h3]

theorem loop_add (a : Agent σ) (k : Nat) :
    ∀ (n : Nat) (s0 s : LoopState σ), a.loop n s0 = .next s → a.loop (n + k) s0 = a.loop k s := by
  intro n
  induction n with
  | zero =>
    intro s0 s h
    simp only [Agent.loop] at h
    cases h
    simp
  | succ n ih =>
    intro s0 s h
    have e : n + 1 + k = (n + k) + 1 := by omega
    rw [e]
    simp only [Agent.loop] at h ⊢
    cases hit : a.iteration s0 with
    | next s' =>
      rw [hit] at h
      simpa using ih s' s h
    | exit err s' =>
      rw [hit] at h
      cases h

theorem loop_of_exit (a : Agent σ) (k : Nat) (s s' : LoopState σ) (err : Option GoError)
    (h : a.iteration s = .exit err s') : a.loop (k + 1) s = .exit err s' := by
  simp [Agent.loop, h]

end Body

/-! ## Tool results of one reply -/

/-- C1: whenever the inference call of a pass through the loop returns a reply
with N ≥ 1 tool requests (among any other blocks), that pass ends back at the
loop head with the transcript extended by the assistant turn followed directly
by exactly one user-role turn, whose blocks are exactly N tool results, in the
order of the requests, the i-th carrying the id of the i-th request. Here `s1`
is the state in which the inference call is made. -/
theorem iteration_tool_results {σ : Type} (a : Agent σ) (s s1 : LoopState σ)
    (message : Message) (env2 : Env σ)
    (hprompt : a.promptUser s = (true, s1))
    (hinfer : a.runInference s1.conversation s1.env = (.ok message, env2))
    (hN : 1 ≤ (toolUses message).length) :
    ∃ (s' : LoopState σ) (results : List ContentBlockParamUnion),
      a.iteration s = .next s' ∧
      s'.conversation =
        s1.conversation ++ [message.ToParam, { Role := .user, Content := results }] ∧
      results.length = (toolUses message).length ∧
      results.map toolResultID = (toolUses message).map (fun c => some c.ID) := by
  have hne : toolUses message ≠ [] := by
    intro h0
    rw [h0] at hN
    simp at hN
  obtain ⟨results, hd, _, hids⟩ :=
    dispatch_of_tool_uses a message { s1 with env := env2 } hne
  refine ⟨_, results, iteration_of_reply a s s1 message env2 hprompt hinfer, ?_, ?_, hids⟩
  · rw [hd]
    rfl
  · have hl := congrArg List.length hids
    simpa using hl

/-- C1 at the scripted agent: a reply with a text block and two tool requests
is answered by one user-role turn with the two results, in order. -/
theorem iteration_tool_results_witness :
    ∃ (s' : LoopState Script) (results : List ContentBlockParamUnion),
      scriptAgent.iteration (initialState demoWorld) = .next s' ∧
      s'.conversation =
        (scriptAgent.promptUser (initialState demoWorld)).2.conversation ++
          [demoReply.ToParam, { Role := .user, Content := results }] ∧
      results.length = (toolUses demoReply).length ∧
      results.map toolResultID = (toolUses demoReply).map (fun c => some c.ID) :=
  iteration_tool_results scriptAgent (initialState demoWorld)
    (scriptAgent.promptUser (initialState demoWorld)).2 demoReply
    (scriptAgent.runInference (scriptAgent.promptUser (initialState demoWorld)).2.conversation
      (scriptAgent.promptUser (initialState demoWorld)).2.env).2
    rfl rfl (by decide)

/-! ## Ways out of the loop -/

/-- C5: if, after any number of passes through the loop, the inference call
made in state `s1` fails with error `e`, then `Run` returns `e` (for every
bound above the number of passes made): the transcript is the one that was
sent with the failed call, no assistant turn is appended, and the failed call
is the last effect of the run. -/
theorem Run_inference_error {σ : Type} (a : Agent σ) (w : σ) (n : Nat) (s s1 : LoopState σ)
    (e : GoError) (w2 : σ) (k : Nat)
    (hreach : a.loop n (initialState w) = .next s)
    (hprompt : a.promptUser s = (true, s1))
    (hfail : a.client.MessagesNew (a.inferenceParams s1.conversation) s1.env.world
      = (.error e, w2)) :
    a.Run (n + 1 + k) w =
      some (some e,
        { conversation := s1.conversation
          readUserInput := s1.readUserInput
          env := { world := w2
                   log := s1.env.log ++
                     [Event.inference (a.inferenceParams s1.conversation) (.error e)] } }) := by
  have hi : a.runInference s1.conversation s1.env =
      (.error e, { world := w2, log := s1.env.log ++
        [Event.inference (a.inferenceParams s1.conversation) (.error e)] }) := by
    rw [runInference_eq, hfail]
  have hit := iteration_of_error a s s1 e _ hprompt hi
  have hl : a.loop (n + (k + 1)) (initialState w) = a.loop (k + 1) s :=
    loop_add a (k + 1) n (initialState w) s hreach
  have e1 : n + 1 + k = n + (k + 1) := by omega
  unfold Agent.Run
  rw [e1, hl, loop_of_exit a k s _ (some e) hit]

/-- C5 at the scripted agent with an unreachable endpoint: the first inference
call fails and `Run` returns that error with the transcript as sent. -/
theorem Run_inference_error_witness :
    scriptAgent.Run (0 + 1 + 4) offlineWorld =
      some (some { text := "connection refused" },
        { conversation := (scriptAgent.promptUser (initialState offlineWorld)).2.conversation
          readUserInput := (scriptAgent.promptUser (initialState offlineWorld)).2.readUserInput
          env := { world := { stdin := [], token := "hello", replies := [], files := [] }
                   log := (scriptAgent.promptUser (initialState offlineWorld)).2.env.log ++
                     [Event.inference
                       (scriptAgent.inferenceParams
                         (scriptAgent.promptUser (initialState offlineWorld)).2.conversation)
                       (.error { text := "connection refused" })] } }) :=
  Run_inference_error scriptAgent offlineWorld 0 (initialState offlineWorld)
    (scriptAgent.promptUser (initialState offlineWorld)).2 { text := "connection refused" }
    { stdin := [], token := "hello", replies := [], files := [] } 4 rfl rfl rfl

/-- C6: whenever the user-input function signals end of input at a prompt,
`Run` returns nil (for every bound above the number of passes made) with the
transcript as it was at the prompt, the prompt and the read being the last
effects of the run. In particular, if the input is exhausted at the first
prompt, `Run` returns nil with an empty transcript and a log holding only the
banner, the prompt and the read: no inference call and no tool invocation. -/
theorem Run_end_of_input {σ : Type} (a : Agent σ) (w : σ) :
    (∀ (n : Nat) (s : LoopState σ),
      a.loop n (initialState w) = .next s → s.readUserInput = true →
      (a.getUserMessage s.env.world).1.2 = false →
      ∀ k : Nat, a.Run (n + 1 + k) w =
        some (none,
          { conversation := s.conversation
            readUserInput := true
            env := { world := (a.getUserMessage s.env.world).2
                     log := s.env.log ++
                       [Event.print "\u001b[94mYou\u001b[0m: ",
                        Event.userInput (a.getUserMessage s.env.world).1.1 false] } })) ∧
    ((a.getUserMessage w).1.2 = false →
      ∀ k : Nat, a.Run (k + 1) w =
        some (none,
          { conversation := []
            readUserInput := true
            env := { world := (a.getUserMessage w).2
                     log := [Event.print "Chat with Claude (use 'ctrl-c' to quit)\n",
                             Event.print "\u001b[94mYou\u001b[0m: ",
                             Event.userInput (a.getUserMessage w).1.1 false] } })) := by
  have general : ∀ (n : Nat) (s : LoopState σ),
      a.loop n (initialState w) = .next s → s.readUserInput = true →
      (a.getUserMessage s.env.world).1.2 = false →
      ∀ k : Nat, a.Run (n + 1 + k) w =
        some (none,
          { conversation := s.conversation
            readUserInput := true
            env := { world := (a.getUserMessage s.env.world).2
                     log := s.env.log ++
                       [Event.print "\u001b[94mYou\u001b[0m: ",
                        Event.userInput (a.getUserMessage s.env.world).1.1 false] } }) := by
    intro n s hreach hr hok k
    have hp1 : (a.promptUser s).1 = false := by
      simp [Agent.promptUser, hr, Env.emit, hok]
    obtain ⟨_, _, hp2⟩ := promptUser_false a s hp1
    have hit := iteration_of_break a s hp1
    have hl : a.loop (n + (k + 1)) (initialState w) = a.loop (k + 1) s :=
      loop_add a (k + 1) n (initialState w) s hreach
    have e1 : n + 1 + k = n + (k + 1) := by omega
    unfold Agent.Run
    rw [e1, hl, loop_of_exit a k s _ none hit, hp2]
    simp [hr]
  refine ⟨general, ?_⟩
  intro hok k
  have h := general 0 (initialState w) rfl rfl hok k
  have e1 : 0 + 1 + k = k + 1 := by omega
  rw [e1] at h
  rw [h]
  rfl

/-- C6 at the scripted agent: with input exhausted at the first prompt, and
with input exhausted at the second prompt of the demo session. -/
theorem Run_end_of_input_witness :
    (∀ k : Nat, scriptAgent.Run (k + 1) silentWorld =
      some (none,
        { conversation := []
          readUserInput := true
          env := { world := silentWorld
                   log := [Event.print "Chat with Claude (use 'ctrl-c' to quit)\n",
                           Event.print "\u001b[94mYou\u001b[0m: ",
                           Event.userInput "" false] } })) ∧
    (∀ k : Nat, (scriptAgent.Run (2 + 1 + k) demoWorld).map (fun r => (r.1, r.2.conversation)) =
      some (none, (scriptAgent.loop 2 (initialState demoWorld)).state.conversation)) :=
  ⟨(Run_end_of_input scriptAgent silentWorld).2 rfl,
    fun k => by
      rw [(Run_end_of_input scriptAgent demoWorld).1 2
        (scriptAgent.loop 2 (initialState demoWorld)).state rfl rfl rfl k]
      rfl⟩

/-! ## Reading the log -/

section Log

theorem isInference_of_isLocal (e : Event) (h : e.isLocal = true) : e.isInference = false := by
  cases e <;> simp_all [Event.isLocal, Event.isInference]

theorem lastInference_append_of_no_inference (l es : List Event)
    (h : ∀ e ∈ es, e.isInference = false) : lastInference (l ++ es) = lastInference l := by
  unfold lastInference
  rw [List.foldl_append]
  generalize List.foldl _ none l = acc
  induction es with
  | nil => rfl
  | cons e rest ih =>
    have he := h e (List.mem_cons_self _ _)
    have hrest := ih (fun e' he' => h e' (List.mem_cons_of_mem _ he'))
    cases e <;> simp_all [Event.isInference]

theorem promptedSince_append_of_local (l es : List Event)
    (h : ∀ e ∈ es, e.isLocal = true) : promptedSince (l ++ es) = promptedSince l := by
  unfold promptedSince
  rw [List.foldl_append]
  generalize List.foldl _ false l = acc
  induction es with
  | nil => rfl
  | cons e rest ih =>
    have he := h e (List.mem_cons_self _ _)
    have hrest := ih (fun e' he' => h e' (List.mem_cons_of_mem _ he'))
    cases e <;> simp_all [Event.isLocal]

theorem lastInference_append_inference (l : List Event) (p : MessageNewParams)
    (r : Except GoError Message) : lastInference (l ++ [Event.inference p r]) = some (p, r) := by
  simp [lastInference, List.foldl_append]

theorem promptedSince_append_inference (l : List Event) (p : MessageNewParams)
    (r : Except GoError Message) : promptedSince (l ++ [Event.inference p r]) = false := by
  simp [promptedSince, List.foldl_append]

theorem promptedSince_append_prompt (l : List Event) (line text : String) (ok : Bool) :
    promptedSince (l ++ [Event.print line, Event.userInput text ok]) = true := by
  simp [promptedSince, List.foldl_append]

theorem append_eq_split {α : Type} (l es pre post : List α) (x : α)
    (h : l ++ es = pre ++ x :: post) :
    (∃ post', l = pre ++ x :: post') ∨ (∃ pre', pre = l ++ pre' ∧ es = pre' ++ x :: post) := by
  rcases List.append_eq_append_iff.mp h with ⟨a', h1, h2⟩ | ⟨c', h1, h2⟩
  · exact Or.inr ⟨a', h1, h2⟩
  · cases c' with
    | nil =>
      refine Or.inr ⟨[], ?_, ?_⟩
      · simpa using h1.symm
      · simpa using h2.symm
    | cons y c'' =>
      simp only [List.cons_append, List.cons.injEq] at h2
      obtain ⟨hy, _⟩ := h2
      subst hy
      exact Or.inl ⟨c'', h1⟩

end Log

section Dispatch

variable {σ : Type}

theorem executeTool_log (a : Agent σ) (id name : String) (input : RawMessage) (env : Env σ) :
    ∃ es, (a.executeTool id name input env).2.log = env.log ++ es ∧
      ∀ e ∈ es, e.isLocal = true := by
  unfold Agent.executeTool
  cases hreg : mapGet a.tools name with
  | none => exact ⟨[], by simp⟩
  | some tool =>
    refine ⟨[Event.print ("\u001b[92mtool\u001b[0m: " ++ name ++ "(" ++ input ++ ")\n"),
      Event.toolCall name input (tool.Function input env.world).1.1
        (tool.Function input env.world).1.2], ?_, ?_⟩
    · simp only []
      split <;> simp [Env.emit]
    · intro e he
      simp at he
      rcases he with he | he <;> subst he <;> rfl

theorem processContent_log (a : Agent σ) (cs : List ContentBlockUnion) :
    ∀ (acc : List ContentBlockParamUnion) (env : Env σ),
      ∃ es, (a.processContent cs acc env).2.log = env.log ++ es ∧
        ∀ e ∈ es, e.isLocal = true := by
  induction cs with
  | nil => intro acc env; exact ⟨[], by simp [Agent.processContent]⟩
  | cons c rest ih =>
    intro acc env
    by_cases ht : c.type = "text"
    · obtain ⟨es, h1, h2⟩ := ih acc
        (env.emit (.print ("\u001b[93mClaude\u001b[0m: " ++ c.Text ++ "\n")))
      refine ⟨Event.print ("\u001b[93mClaude\u001b[0m: " ++ c.Text ++ "\n") :: es, ?_, ?_⟩
      · simpa [Agent.processContent, ht, Env.emit] using h1
      · intro e he
        rcases List.mem_cons.mp he with he | he
        · subst he; rfl
        · exact h2 e he
    · by_cases hu : c.type = "tool_use"
      · obtain ⟨es1, h1, h2⟩ := executeTool_log a c.ID c.Name c.Input env
        obtain ⟨es2, h3, h4⟩ := ih (acc ++ [(a.executeTool c.ID c.Name c.Input env).1])
          (a.executeTool c.ID c.Name c.Input env).2
        refine ⟨es1 ++ es2, ?_, ?_⟩
        · have hstep : a.processContent (c :: rest) acc env =
              a.processContent rest (acc ++ [(a.executeTool c.ID c.Name c.Input env).1])
                (a.executeTool c.ID c.Name c.Input env).2 := by
            simp [Agent.processContent, hu]
          rw [hstep, h3, h1, List.append_assoc]
        · intro e he
          rcases List.mem_append.mp he with he | he
          · exact h2 e he
          · exact h4 e he
      · obtain ⟨es, h1, h2⟩ := ih acc env
        exact ⟨es, by simpa [Agent.processContent, ht, hu] using h1, h2⟩

theorem dispatch_log (a : Agent σ) (m : Message) (s : LoopState σ) :
    ∃ es, (a.dispatch m s).env.log = s.env.log ++ es ∧ ∀ e ∈ es, e.isLocal = true := by
  obtain ⟨es, h1, h2⟩ := processContent_log a m.Content [] s.env
  refine ⟨es, ?_, h2⟩
  unfold Agent.dispatch
  simp only []
  split <;> exact h1

end Dispatch

/-! ## Invariant of the loop -/

section Invariant

variable {σ : Type}

theorem LogOK_nil : LogOK [] := by
  intro pre p r post h
  simp at h

theorem LogOK_append_of_no_inference (l es : List Event) (h : LogOK l)
    (hes : ∀ e ∈ es, e.isInference = false) : LogOK (l ++ es) := by
  intro pre p r post heq
  rcases append_eq_split l es pre post _ heq with ⟨post', hl⟩ | ⟨pre', _, hes'⟩
  · exact h pre p r post' hl
  · have hmem : Event.inference p r ∈ es := by
      rw [hes']
      simp
    have := hes _ hmem
    simp [Event.isInference] at this

theorem LogOK_append_inference (l : List Event) (p : MessageNewParams)
    (r : Except GoError Message) (h : LogOK l) (h1 : PromptRule l)
    (h2 : TranscriptRule l p.Messages) : LogOK (l ++ [Event.inference p r]) := by
  intro pre p' r' post heq
  rcases append_eq_split l _ pre post _ heq with ⟨post', hl⟩ | ⟨pre', hpre, hes'⟩
  · exact h pre p' r' post' hl
  · cases pre' with
    | nil =>
      simp only [List.nil_append, List.cons.injEq, Event.inference.injEq] at hes'
      obtain ⟨⟨hp, _⟩, _⟩ := hes'
      subst hp
      simp only [List.append_nil] at hpre
      subst hpre
      exact ⟨h1, h2⟩
    | cons y rest =>
      simp at hes'

theorem Inv_initialState (w : σ) : Inv (initialState w) := by
  refine ⟨?_, by simp [initialState, promptedSince], ?_, ?_⟩
  · have h := LogOK_append_of_no_inference []
      [Event.print "Chat with Claude (use 'ctrl-c' to quit)\n"] LogOK_nil
      (by intro e he; simp at he; subst he; rfl)
    simpa [initialState] using h
  · intro _
    exact ⟨rfl, rfl⟩
  · intro p0 r0 h
    simp [initialState, lastInference] at h

theorem Inv_prompt (a : Agent σ) (s s1 : LoopState σ) (hinv : Inv s)
    (hp : a.promptUser s = (true, s1)) :
    LogOK s1.env.log ∧ PromptRule s1.env.log ∧
      TranscriptRule s1.env.log s1.conversation := by
  obtain ⟨hlog, hps, hnone, hsome⟩ := hinv
  rcases promptUser_true a s s1 hp with ⟨hr, hs1⟩ | ⟨hr, hok, hs1⟩
  · subst hs1
    refine ⟨hlog, ?_, ?_, ?_⟩
    · unfold PromptRule
      rw [hps]
      constructor
      · intro h
        cases h
      · rintro (h | ⟨p, m, h, hm⟩)
        · have h3 := (hnone h).2
          rw [hr] at h3
          cases h3
        · obtain ⟨m', hm', hcase⟩ := hsome p _ h
          cases hm'
          rcases hcase with ⟨_, hr', _⟩ | ⟨hne, _, _⟩
          · rw [hr] at hr'
            cases hr'
          · exact absurd hm hne
    · intro h
      have h3 := (hnone h).2
      rw [hr] at h3
      cases h3
    · intro p0 r0 h
      obtain ⟨m, hm, hcase⟩ := hsome p0 r0 h
      rcases hcase with ⟨_, hr', _⟩ | ⟨hne, _, results, hids, hconv⟩
      · rw [hr] at hr'
        cases hr'
      · exact ⟨m, _, hm, hconv, Or.inr ⟨hne, results, hids, rfl⟩⟩
  · have hnoinf : ∀ e ∈ [Event.print "\u001b[94mYou\u001b[0m: ",
        Event.userInput (a.getUserMessage s.env.world).1.1 true], e.isInference = false := by
      intro e he
      simp at he
      rcases he with he | he <;> subst he <;> rfl
    have hlast : lastInference s1.env.log = lastInference s.env.log := by
      rw [hs1]
      exact lastInference_append_of_no_inference _ _ hnoinf
    have hprompted : promptedSince s1.env.log = true := by
      rw [hs1]
      exact promptedSince_append_prompt _ _ _ _
    have hconv : s1.conversation = s.conversation ++
        [{ Role := .user, Content := [.OfText (a.getUserMessage s.env.world).1.1] }] := by
      rw [hs1]
      rfl
    refine ⟨?_, ?_, ?_, ?_⟩
    · rw [hs1]
      exact LogOK_append_of_no_inference _ _ hlog hnoinf
    · unfold PromptRule
      rw [hprompted, hlast]
      refine ⟨fun _ => ?_, fun _ => rfl⟩
      cases hl : lastInference s.env.log with
      | none => exact Or.inl rfl
      | some pr =>
        obtain ⟨p0, r0⟩ := pr
        obtain ⟨m, hm, hcase⟩ := hsome p0 r0 hl
        subst hm
        rcases hcase with ⟨hnil, _, _⟩ | ⟨_, hr', _⟩
        · exact Or.inr ⟨p0, m, rfl, hnil⟩
        · rw [hr] at hr'
          cases hr'
    · intro h
      rw [hlast] at h
      refine ⟨(a.getUserMessage s.env.world).1.1, ?_⟩
      rw [hconv, (hnone h).1]
      rfl
    · intro p0 r0 h
      rw [hlast] at h
      obtain ⟨m, hm, hcase⟩ := hsome p0 r0 h
      rcases hcase with ⟨hnil, _, hc⟩ | ⟨_, hr', _⟩
      · refine ⟨m, _, hm, ?_, Or.inl ⟨hnil, (a.getUserMessage s.env.world).1.1, rfl⟩⟩
        rw [hconv, hc]
        simp
      · rw [hr] at hr'
        cases hr'

theorem Inv_step (a : Agent σ) (s : LoopState σ) (hinv : Inv s) :
    (∀ s', a.iteration s = .next s' → Inv s') ∧
    (∀ err s', a.iteration s = .exit err s' → LogOK s'.env.log) := by
  rcases iteration_cases a s with ⟨hp, hit⟩ | ⟨s1, e, env2, hp, hi, hit⟩ |
      ⟨s1, m, env2, hp, hi, hit⟩
  · refine ⟨fun s' h => ?_, fun err s' h => ?_⟩
    · rw [hit] at h
      cases h
    · rw [hit] at h
      cases h
      obtain ⟨_, _, hp2⟩ := promptUser_false a s hp
      rw [hp2]
      refine LogOK_append_of_no_inference _ _ hinv.1 ?_
      intro e he
      simp at he
      rcases he with he | he <;> subst he <;> rfl
  · obtain ⟨h1, h2, h3⟩ := Inv_prompt a s s1 hinv hp
    refine ⟨fun s' h => ?_, fun err s' h => ?_⟩
    · rw [hit] at h
      cases h
    · rw [hit] at h
      cases h
      rw [runInference_eq] at hi
      have henv : env2.log = s1.env.log ++ [Event.inference (a.inferenceParams s1.conversation)
          (a.client.MessagesNew (a.inferenceParams s1.conversation) s1.env.world).1] := by
        rw [← (Prod.mk.inj hi).2]
      show LogOK env2.log
      rw [henv]
      exact LogOK_append_inference _ _ _ h1 h2 h3
  · obtain ⟨h1, h2, h3⟩ := Inv_prompt a s s1 hinv hp
    refine ⟨fun s' h => ?_, fun err s' h => ?_⟩
    · rw [hit] at h
      cases h
      rw [runInference_eq] at hi
      have hres : (a.client.MessagesNew (a.inferenceParams s1.conversation) s1.env.world).1
          = Except.ok m := (Prod.mk.inj hi).1
      have henv : env2.log = s1.env.log ++ [Event.inference (a.inferenceParams s1.conversation)
          (Except.ok m)] := by
        rw [← (Prod.mk.inj hi).2, hres]
      obtain ⟨es, hlog, hlocal⟩ := dispatch_log a m { s1 with env := env2 }
      have hlog' : (a.dispatch m { s1 with env := env2 }).env.log =
          (s1.env.log ++ [Event.inference (a.inferenceParams s1.conversation) (Except.ok m)])
            ++ es := by
        rw [hlog]
        show env2.log ++ es = _
        rw [henv]
      have hnoinf : ∀ e ∈ es, e.isInference = false :=
        fun e he => isInference_of_isLocal e (hlocal e he)
      have hlast : lastInference (a.dispatch m { s1 with env := env2 }).env.log =
          some (a.inferenceParams s1.conversation, Except.ok m) := by
        rw [hlog', lastInference_append_of_no_inference _ _ hnoinf,
          lastInference_append_inference]
      refine ⟨?_, ?_, ?_, ?_⟩
      · rw [hlog']
        exact LogOK_append_of_no_inference _ _ (LogOK_append_inference _ _ _ h1 h2 h3) hnoinf
      · rw [hlog', promptedSince_append_of_local _ _ hlocal, promptedSince_append_inference]
      · intro h
        rw [hlast] at h
        cases h
      · intro p0 r0 h
        rw [hlast] at h
        cases h
        refine ⟨m, rfl, ?_⟩
        by_cases hnil : toolUses m = []
        · left
          rw [dispatch_of_no_tool_use a m _ hnil]
          exact ⟨hnil, rfl, rfl⟩
        · right
          obtain ⟨results, hd, _, hids⟩ := dispatch_of_tool_uses a m { s1 with env := env2 } hnil
          rw [hd]
          exact ⟨hnil, rfl, results, hids, rfl⟩
    · rw [hit] at h
      cases h

theorem loop_LogOK (a : Agent σ) :
    ∀ (n : Nat) (s : LoopState σ), Inv s → LogOK (a.loop n s).state.env.log := by
  intro n
  induction n with
  | zero =>
    intro s h
    exact h.1
  | succ n ih =>
    intro s h
    obtain ⟨hnext, hexit⟩ := Inv_step a s h
    simp only [Agent.loop]
    cases hit : a.iteration s with
    | next s' => exact ih s' (hnext s' hit)
    | exit err s' => exact hexit err s' hit

end Invariant

/-! ## Turn taking and the transcript over a whole run -/

section Growth

variable {σ : Type}

theorem promptUser_conversation (a : Agent σ) (s : LoopState σ) :
    s.conversation <+: (a.promptUser s).2.conversation := by
  unfold Agent.promptUser
  by_cases hr : s.readUserInput = true
  · by_cases hok : (a.getUserMessage s.env.world).1.2 = true
    · simp [hr, Env.emit, hok]
    · simp [hr, Env.emit, hok]
  · simp [hr]

theorem dispatch_conversation (a : Agent σ) (m : Message) (s : LoopState σ) :
    s.conversation <+: (a.dispatch m s).conversation := by
  unfold Agent.dispatch
  simp only []
  split
  · exact List.prefix_append _ _
  · rw [List.append_assoc]
    exact List.prefix_append _ _

theorem iteration_conversation (a : Agent σ) (s : LoopState σ) :
    s.conversation <+: (a.iteration s).state.conversation := by
  have h0 := promptUser_conversation a s
  rcases iteration_cases a s with ⟨_, hit⟩ | ⟨s1, e, env2, hp, _, hit⟩ |
      ⟨s1, m, env2, hp, _, hit⟩
  · rw [hit]
    exact h0
  · rw [hit]
    rw [hp] at h0
    exact h0
  · rw [hit]
    rw [hp] at h0
    exact h0.trans (dispatch_conversation a m { s1 with env := env2 })

theorem loop_conversation (a : Agent σ) :
    ∀ (k : Nat) (s : LoopState σ), s.conversation <+: (a.loop k s).state.conversation := by
  intro k
  induction k with
  | zero => intro s; exact List.prefix_refl _
  | succ k ih =>
    intro s
    have h1 := iteration_conversation a s
    simp only [Agent.loop]
    cases hit : a.iteration s with
    | next s' =>
      rw [hit] at h1
      exact h1.trans (ih s')
    | exit err s' =>
      rw [hit] at h1
      exact h1

theorem loop_add_of_exit (a : Agent σ) (k : Nat) :
    ∀ (n : Nat) (s0 s : LoopState σ) (err : Option GoError),
      a.loop n s0 = .exit err s → a.loop (n + k) s0 = .exit err s := by
  intro n
  induction n with
  | zero =>
    intro s0 s err h
    simp [Agent.loop] at h
  | succ n ih =>
    intro s0 s err h
    have e : n + 1 + k = (n + k) + 1 := by omega
    rw [e]
    simp only [Agent.loop] at h ⊢
    cases hit : a.iteration s0 with
    | next s' =>
      rw [hit] at h
      simpa using ih s' s err h
    | exit err' s' =>
      rw [hit] at h
      simpa using h

theorem loop_one (a : Agent σ) (s : LoopState σ) : a.loop 1 s = a.iteration s := by
  simp only [Agent.loop]
  cases a.iteration s <;> rfl

theorem SentOK_append_of_no_inference (l es : List Event) (conv conv' : List MessageParam)
    (h : SentOK l conv) (hes : ∀ e ∈ es, e.isInference = false) (hconv : conv <+: conv') :
    SentOK (l ++ es) conv' := by
  intro pre p r post heq
  rcases append_eq_split l es pre post _ heq with ⟨post', hl⟩ | ⟨pre', _, hes'⟩
  · exact (h pre p r post' hl).trans hconv
  · have hmem : Event.inference p r ∈ es := by
      rw [hes']
      simp
    have := hes _ hmem
    simp [Event.isInference] at this

theorem SentOK_append_inference (l : List Event) (conv : List MessageParam)
    (p : MessageNewParams) (r : Except GoError Message)
    (h : SentOK l conv) (hp : p.Messages <+: conv) : SentOK (l ++ [Event.inference p r]) conv := by
  intro pre p' r' post heq
  rcases append_eq_split l _ pre post _ heq with ⟨post', hl⟩ | ⟨pre', _, hes'⟩
  · exact h pre p' r' post' hl
  · cases pre' with
    | nil =>
      simp only [List.nil_append, List.cons.injEq, Event.inference.injEq] at hes'
      obtain ⟨⟨hp', _⟩, _⟩ := hes'
      subst hp'
      exact hp
    | cons y rest =>
      simp at hes'

theorem SentOK_prompt (a : Agent σ) (s s1 : LoopState σ)
    (h : SentOK s.env.log s.conversation) (hp : a.promptUser s = (true, s1)) :
    SentOK s1.env.log s1.conversation := by
  rcases promptUser_true a s s1 hp with ⟨_, hs1⟩ | ⟨_, _, hs1⟩
  · rw [hs1]
    exact h
  · rw [hs1]
    refine SentOK_append_of_no_inference _ _ _ _ h ?_ (List.prefix_append _ _)
    intro e he
    simp at he
    rcases he with he | he <;> subst he <;> rfl

theorem SentOK_iteration (a : Agent σ) (s : LoopState σ)
    (h : SentOK s.env.log s.conversation) :
    SentOK (a.iteration s).state.env.log (a.iteration s).state.conversation := by
  rcases iteration_cases a s with ⟨hp, hit⟩ | ⟨s1, e, env2, hp, hi, hit⟩ |
      ⟨s1, m, env2, hp, hi, hit⟩
  · rw [hit]
    obtain ⟨_, _, hp2⟩ := promptUser_false a s hp
    show SentOK (a.promptUser s).2.env.log (a.promptUser s).2.conversation
    rw [hp2]
    refine SentOK_append_of_no_inference _ _ _ _ h ?_ (List.prefix_refl _)
    intro e he
    simp at he
    rcases he with he | he <;> subst he <;> rfl
  · have h1 := SentOK_prompt a s s1 h hp
    rw [hit]
    rw [runInference_eq] at hi
    have henv := (Prod.mk.inj hi).2
    show SentOK env2.log s1.conversation
    rw [← henv]
    exact SentOK_append_inference _ _ _ _ h1 (List.prefix_refl _)
  · have h1 := SentOK_prompt a s s1 h hp
    rw [hit]
    rw [runInference_eq] at hi
    have henv := (Prod.mk.inj hi).2
    obtain ⟨es, hlog, hlocal⟩ := dispatch_log a m { s1 with env := env2 }
    have hconv : s1.conversation <+: (a.dispatch m { s1 with env := env2 }).conversation :=
      dispatch_conversation a m { s1 with env := env2 }
    have hlog2 : (a.dispatch m { s1 with env := env2 }).env.log =
        (s1.env.log ++ [Event.inference (a.inferenceParams s1.conversation)
          (a.client.MessagesNew (a.inferenceParams s1.conversation) s1.env.world).1]) ++ es := by
      rw [hlog]
      show env2.log ++ es = _
      rw [← henv]
    show SentOK (a.dispatch m { s1 with env := env2 }).env.log
      (a.dispatch m { s1 with env := env2 }).conversation
    rw [hlog2]
    exact SentOK_append_of_no_inference _ _ s1.conversation _
      (SentOK_append_inference _ _ _ _ h1 (List.prefix_refl _))
      (fun e he => isInference_of_isLocal e (hlocal e he)) hconv

theorem SentOK_loop (a : Agent σ) :
    ∀ (n : Nat) (s : LoopState σ), SentOK s.env.log s.conversation →
      SentOK (a.loop n s).state.env.log (a.loop n s).state.conversation := by
  intro n
  induction n with
  | zero => intro s h; exact h
  | succ n ih =>
    intro s h
    have h1 := SentOK_iteration a s h
    simp only [Agent.loop]
    cases hit : a.iteration s with
    | next s' =>
      rw [hit] at h1
      exact ih s' h1
    | exit err s' =>
      rw [hit] at h1
      exact h1

theorem SentOK_initialState (w : σ) :
    SentOK (initialState w).env.log (initialState w).conversation := by
  intro pre p r post h
  have hmem : Event.inference p r ∈ (initialState w).env.log := by
    rw [h]
    simp
  simp [initialState] at hmem

end Growth

/-- C4: in the log of every run of `Run` (after any number of passes through
the loop, finished or not), the user-input function has been called since the
previous inference call (since the start, for the first call) if and only if
the call is the first of the session or the previous call returned a reply
with no tool request. So after a reply with tool requests the next inference
call is made without a prompt, and after a reply without any the user is
prompted before the next call. -/
theorem Run_prompt_rule {σ : Type} (a : Agent σ) (w : σ) (n : Nat) (pre post : List Event)
    (p : MessageNewParams) (r : Except GoError Message)
    (hlog : (a.loop n (initialState w)).state.env.log = pre ++ Event.inference p r :: post) :
    promptedSince pre = true ↔
      (lastInference pre = none ∨
        ∃ p0 m, lastInference pre = some (p0, Except.ok m) ∧ toolUses m = []) :=
  (loop_LogOK a n (initialState w) (Inv_initialState w) pre p r post hlog).1

/-- C10: in the log of every run of `Run`, the first inference call is sent a
transcript of exactly one user-role text turn, and every later call is sent
the transcript of the call before it followed by the reply of that call, as an
assistant turn, and exactly one user-role turn: the text typed by the human if
the reply had no tool request, else the batch of tool results. Every transcript
sent is an initial part of the transcript the loop holds from then on, and the
transcript held by the loop only ever grows at its end. -/
theorem Run_transcript {σ : Type} (a : Agent σ) (w : σ) :
    (∀ (n : Nat) (pre post : List Event) (p : MessageNewParams) (r : Except GoError Message),
      (a.loop n (initialState w)).state.env.log = pre ++ Event.inference p r :: post →
      (lastInference pre = none →
        ∃ text : String, p.Messages = [{ Role := .user, Content := [.OfText text] }]) ∧
      (∀ p0 r0, lastInference pre = some (p0, r0) →
        ∃ m u, r0 = Except.ok m ∧ p.Messages = p0.Messages ++ [m.ToParam, u] ∧
          ((toolUses m = [] ∧
              ∃ text : String, u = { Role := .user, Content := [.OfText text] }) ∨
           (toolUses m ≠ [] ∧ ∃ results : List ContentBlockParamUnion,
              results.map toolResultID = (toolUses m).map (fun c => some c.ID) ∧
              u = { Role := .user, Content := results })))) ∧
    (∀ (n : Nat) (pre post : List Event) (p : MessageNewParams) (r : Except GoError Message),
      (a.loop n (initialState w)).state.env.log = pre ++ Event.inference p r :: post →
      p.Messages <+: (a.loop n (initialState w)).state.conversation) ∧
    (∀ n k : Nat,
      (a.loop n (initialState w)).state.conversation <+:
        (a.loop (n + k) (initialState w)).state.conversation) := by
  refine ⟨?_, ?_, ?_⟩
  · intro n pre post p r hlog
    exact (loop_LogOK a n (initialState w) (Inv_initialState w) pre p r post hlog).2
  · intro n pre post p r hlog
    exact SentOK_loop a n (initialState w) (SentOK_initialState w) pre p r post hlog
  · intro n k
    cases h : a.loop n (initialState w) with
    | next s =>
      rw [loop_add a k n (initialState w) s h]
      exact loop_conversation a k s
    | exit err s =>
      rw [loop_add_of_exit a k n (initialState w) s err h]

/-- C4 at the demo session, for its second inference call: it follows a reply
with tool requests and no prompt precedes it. -/
theorem Run_prompt_rule_witness :
    promptedSince ((scriptAgent.loop 3 (initialState demoWorld)).state.env.log.take 7) = true ↔
      (lastInference ((scriptAgent.loop 3 (initialState demoWorld)).state.env.log.take 7) = none ∨
        ∃ p0 m, lastInference ((scriptAgent.loop 3 (initialState demoWorld)).state.env.log.take 7)
          = some (p0, Except.ok m) ∧ toolUses m = []) :=
  Run_prompt_rule scriptAgent demoWorld 3
    ((scriptAgent.loop 3 (initialState demoWorld)).state.env.log.take 7)
    ((scriptAgent.loop 3 (initialState demoWorld)).state.env.log.drop 8)
    demoSecondRequest (Except.ok demoClosingReply) rfl

/-- C10 at the demo session: the second inference call is sent the transcript
of the first followed by the first reply and the turn of tool results. -/
theorem Run_transcript_witness :
    ∃ m u, (Except.ok demoReply : Except GoError Message) = Except.ok m ∧
      demoSecondRequest.Messages =
        (scriptAgent.inferenceParams
          [{ Role := .user, Content := [.OfText "read b.txt"] }]).Messages ++ [m.ToParam, u] ∧
      ((toolUses m = [] ∧
          ∃ text : String, u = { Role := .user, Content := [.OfText text] }) ∨
       (toolUses m ≠ [] ∧ ∃ results : List ContentBlockParamUnion,
          results.map toolResultID = (toolUses m).map (fun c => some c.ID) ∧
          u = { Role := .user, Content := results })) :=
  ((Run_transcript scriptAgent demoWorld).1 3
    ((scriptAgent.loop 3 (initialState demoWorld)).state.env.log.take 7)
    ((scriptAgent.loop 3 (initialState demoWorld)).state.env.log.drop 8)
    demoSecondRequest (Except.ok demoClosingReply) rfl).2
    (scriptAgent.inferenceParams [{ Role := .user, Content := [.OfText "read b.txt"] }])
    (Except.ok demoReply) rfl

/-! ## Which failures end the run -/

section Failures

variable {σ : Type}

theorem processContent_append (a : Agent σ) (before rest : List ContentBlockUnion) :
    ∀ (acc : List ContentBlockParamUnion) (env : Env σ),
      a.processContent (before ++ rest) acc env =
        a.processContent rest (a.processContent before acc env).1
          (a.processContent before acc env).2 := by
  induction before with
  | nil => intro acc env; simp [Agent.processContent]
  | cons c cs ih =>
    intro acc env
    by_cases ht : c.type = "text"
    · simp [Agent.processContent, ht, ih]
    · by_cases hu : c.type = "tool_use"
      · simp [Agent.processContent, hu, ih]
      · simp [Agent.processContent, ht, hu, ih]

theorem executeTool_of_failure (a : Agent σ) (id name : String) (input : RawMessage)
    (env : Env σ) (content : String)
    (h : (name ∉ mapKeys a.tools ∧ content = "tool not found") ∨
      (∃ tool err, mapGet a.tools name = some tool ∧
        (tool.Function input env.world).1.2 = some err ∧ content = err.Error)) :
    (a.executeTool id name input env).1 = .OfToolResult id content true := by
  rcases h with ⟨hk, hc⟩ | ⟨tool, err, hreg, herr, hc⟩
  · have h1 : mapGet a.tools name = none := (mapGet_eq_none_iff a.tools name).mpr hk
    simp [Agent.executeTool, h1, NewToolResultBlock, hc]
  · simp [Agent.executeTool, hreg, Env.emit, herr, NewToolResultBlock, hc]

theorem loop_exit_error (a : Agent σ) (e : GoError) (s : LoopState σ) :
    ∀ (n : Nat) (s0 : LoopState σ), a.loop n s0 = .exit (some e) s →
      ∃ pre p, s.env.log = pre ++ [Event.inference p (Except.error e)] := by
  intro n
  induction n with
  | zero =>
    intro s0 h
    simp [Agent.loop] at h
  | succ n ih =>
    intro s0 h
    simp only [Agent.loop] at h
    rcases iteration_cases a s0 with ⟨_, hit⟩ | ⟨s1, e', env2, _, hi, hit⟩ |
        ⟨s1, m, env2, _, _, hit⟩
    · rw [hit] at h
      cases h
    · rw [hit] at h
      cases h
      rw [runInference_eq] at hi
      have hres := (Prod.mk.inj hi).1
      have henv := (Prod.mk.inj hi).2
      refine ⟨s1.env.log, a.inferenceParams s1.conversation, ?_⟩
      show env2.log = _
      rw [← henv, hres]
    · rw [hit] at h
      exact ih _ h

theorem iteration_log_of_no_prompt (a : Agent σ) (s : LoopState σ)
    (h : s.readUserInput = false) :
    ∃ r rest, (a.iteration s).state.env.log =
      s.env.log ++ Event.inference (a.inferenceParams s.conversation) r :: rest := by
  have hp0 : a.promptUser s = (true, s) := by
    simp [Agent.promptUser, h]
  rcases iteration_cases a s with ⟨hp, _⟩ | ⟨s1, e, env2, hp, hi, hit⟩ |
      ⟨s1, m, env2, hp, hi, hit⟩
  · rw [hp0] at hp
    cases hp
  · rw [hp0] at hp
    cases hp
    rw [runInference_eq] at hi
    have henv := (Prod.mk.inj hi).2
    refine ⟨(a.client.MessagesNew (a.inferenceParams s.conversation) s.env.world).1, [], ?_⟩
    rw [hit]
    show env2.log = _
    rw [← henv]
  · rw [hp0] at hp
    cases hp
    rw [runInference_eq] at hi
    have henv := (Prod.mk.inj hi).2
    obtain ⟨es, hlog, _⟩ := dispatch_log a m { s with env := env2 }
    refine ⟨(a.client.MessagesNew (a.inferenceParams s.conversation) s.env.world).1, es, ?_⟩
    rw [hit]
    show (a.dispatch m { s with env := env2 }).env.log = _
    rw [hlog]
    show env2.log ++ es = _
    rw [← henv]
    simp

end Failures

/-- C7: `Run` returns an error only when an inference call returned that
error: the failed call is then the last effect of the run. A tool request
whose name is not registered, or whose tool function returns an error, does
not end the run: the pass ends back at the loop head, the transcript holds the
turn of tool results with the error-flagged result of that request, and the
next pass starts with an inference call on that transcript. Here `before` are
the blocks of the reply ahead of the request `c`, and the tool function is
judged in the world left by dispatching them. -/
theorem Run_error_only_from_inference {σ : Type} (a : Agent σ) (w : σ) :
    (∀ (fuel : Nat) (e : GoError) (s : LoopState σ), a.Run fuel w = some (some e, s) →
      ∃ pre p, s.env.log = pre ++ [Event.inference p (Except.error e)]) ∧
    (∀ (n : Nat) (s s1 : LoopState σ) (message : Message) (env2 : Env σ)
      (before after : List ContentBlockUnion) (c : ContentBlockUnion) (content : String),
      a.loop n (initialState w) = .next s →
      a.promptUser s = (true, s1) →
      a.runInference s1.conversation s1.env = (.ok message, env2) →
      message.Content = before ++ c :: after →
      c.type = "tool_use" →
      ((c.Name ∉ mapKeys a.tools ∧ content = "tool not found") ∨
        (∃ tool err, mapGet a.tools c.Name = some tool ∧
          (tool.Function c.Input (a.processContent before [] env2).2.world).1.2 = some err ∧
          content = err.Error)) →
      ∃ (s' : LoopState σ) (results : List ContentBlockParamUnion),
        a.loop (n + 1) (initialState w) = .next s' ∧
        s'.conversation =
          s1.conversation ++ [message.ToParam, { Role := .user, Content := results }] ∧
        ContentBlockParamUnion.OfToolResult c.ID content true ∈ results ∧
        ∃ r rest, (a.iteration s').state.env.log =
          s'.env.log ++ Event.inference (a.inferenceParams s'.conversation) r :: rest) := by
  refine ⟨?_, ?_⟩
  · intro fuel e s h
    unfold Agent.Run at h
    cases hl : a.loop fuel (initialState w) with
    | next s' =>
      rw [hl] at h
      cases h
    | exit err s' =>
      rw [hl] at h
      cases h
      exact loop_exit_error a e s fuel (initialState w) hl
  · intro n s s1 message env2 before after c content hreach hp hi hcontent hu hfail
    have hit := iteration_of_reply a s s1 message env2 hp hi
    have huse : isToolUse c = true := by simp [isToolUse, hu]
    have hne : toolUses message ≠ [] := by
      unfold toolUses
      rw [hcontent]
      intro h0
      have hmem : c ∈ List.filter isToolUse (before ++ c :: after) :=
        List.mem_filter.mpr ⟨by simp, huse⟩
      rw [h0] at hmem
      cases hmem
    obtain ⟨results, hd, hres, _⟩ := dispatch_of_tool_uses a message { s1 with env := env2 } hne
    have hloop : a.loop (n + 1) (initialState w) =
        .next (a.dispatch message { s1 with env := env2 }) := by
      rw [loop_add a 1 n (initialState w) s hreach, loop_one, hit]
    refine ⟨_, results, hloop, ?_, ?_, ?_⟩
    · rw [hd]
      rfl
    · have hsplit : a.processContent message.Content [] env2 =
          a.processContent after
            ((a.processContent before [] env2).1 ++
              [(a.executeTool c.ID c.Name c.Input (a.processContent before [] env2).2).1])
            (a.executeTool c.ID c.Name c.Input (a.processContent before [] env2).2).2 := by
        rw [hcontent, processContent_append]
        simp [Agent.processContent, hu]
      obtain ⟨rs, hrs, _⟩ := processContent_results a after
        ((a.processContent before [] env2).1 ++
          [(a.executeTool c.ID c.Name c.Input (a.processContent before [] env2).2).1])
        (a.executeTool c.ID c.Name c.Input (a.processContent before [] env2).2).2
      have hexec := executeTool_of_failure a c.ID c.Name c.Input
        (a.processContent before [] env2).2 content hfail
      rw [hres]
      show _ ∈ (a.processContent message.Content [] env2).1
      rw [hsplit, hrs, hexec]
      simp
    · apply iteration_log_of_no_prompt
      rw [hd]

/-- C7 at the demo session: the request for a missing file and the request for
an unknown tool both come back as error-flagged results, the run goes on, and
a run against an unreachable endpoint ends with the failed call. -/
theorem Run_error_only_from_inference_witness :
    (∃ pre p, (scriptAgent.loop 1 (initialState offlineWorld)).state.env.log =
      pre ++ [Event.inference p (Except.error { text := "connection refused" })]) ∧
    (∃ (s' : LoopState Script) (results : List ContentBlockParamUnion),
      scriptAgent.loop (0 + 1) (initialState demoWorld) = .next s' ∧
      s'.conversation =
        (scriptAgent.promptUser (initialState demoWorld)).2.conversation ++
          [demoReply.ToParam, { Role := .user, Content := results }] ∧
      ContentBlockParamUnion.OfToolResult "t1" "open b.txt: no such file or directory" true
        ∈ results ∧
      ∃ r rest, (scriptAgent.iteration s').state.env.log =
        s'.env.log ++ Event.inference (scriptAgent.inferenceParams s'.conversation) r :: rest) :=
  ⟨(Run_error_only_from_inference scriptAgent offlineWorld).1 1
      { text := "connection refused" } (scriptAgent.loop 1 (initialState offlineWorld)).state rfl,
    (Run_error_only_from_inference scriptAgent demoWorld).2 0 (initialState demoWorld)
      (scriptAgent.promptUser (initialState demoWorld)).2 demoReply
      (scriptAgent.runInference (scriptAgent.promptUser (initialState demoWorld)).2.conversation
        (scriptAgent.promptUser (initialState demoWorld)).2.env).2
      [textBlock "Let me look."] [toolUseBlock "t2" "search" "b"]
      (toolUseBlock "t1" "read_file" "b.txt") "open b.txt: no such file or directory"
      rfl rfl rfl rfl rfl
      (Or.inr ⟨readFileTool, { text := "open b.txt: no such file or directory" },
        rfl, rfl, rfl⟩)⟩

/-! ## Exit status of the process -/

/-- C8, as the code has it: whenever `Run` returns, `main` returns too and the
process exits with status 0, both when the session ended on end of input and
when `Run` returned an error; in the latter case the line "Error: " followed
by the text of the error is printed before exiting. -/
theorem main_exit_status {σ : Type} (client : Client σ) (scanner : Scanner σ)
    (ReadFileDefinition ListFilesDefinition EditFileDefinition : ToolDefinition σ)
    (fuel : Nat) (w : σ) (err : Option GoError) (s : LoopState σ)
    (hrun : (NewAgent client (getUserMessage scanner)
      [ReadFileDefinition, ListFilesDefinition, EditFileDefinition]).Run fuel w = some (err, s)) :
    main client scanner ReadFileDefinition ListFilesDefinition EditFileDefinition fuel w =
      some { exitCode := 0
             env := { world := s.env.world, log := s.env.log ++ errorLines err } } := by
  unfold main
  simp only []
  rw [hrun]
  cases err with
  | none => simp [errorLines]
  | some e => simp [errorLines, Env.emit]

/-- C8 with an unreachable endpoint: `Run` returns the transport error, the
error line is printed and the exit status is 0. -/
theorem main_exit_status_witness :
    main scriptClient scriptScanner readFileTool listFilesTool editFileTool 1 offlineWorld =
      some { exitCode := 0
             env := { world := (scriptAgent.loop 1 (initialState offlineWorld)).state.env.world
                      log := (scriptAgent.loop 1 (initialState offlineWorld)).state.env.log ++
                        errorLines (some { text := "connection refused" }) } } :=
  main_exit_status scriptClient scriptScanner readFileTool listFilesTool editFileTool 1
    offlineWorld (some { text := "connection refused" })
    (scriptAgent.loop 1 (initialState offlineWorld)).state rfl

/-- C8, the exit status on a transport error: with an unreachable endpoint
`Run` returns the transport error and the exit status of the process is 0,
not a nonzero one. -/
theorem main_exit_status_on_transport_error :
    (scriptAgent.Run 1 offlineWorld).map Prod.fst =
      some (some { text := "connection refused" }) ∧
    (main scriptClient scriptScanner readFileTool listFilesTool editFileTool 1
      offlineWorld).map Process.exitCode = some 0 := by
  constructor <;> rfl

end CodeEditingAgent
